import Mathlib

/-!
Shallow embedding of the risk-engine core of the `frm` repository:
the Black-Scholes pricer with its memoizing cache (`pricing_models.hpp`),
the Monte Carlo VaR/ES reducers (`monte_carlo.hpp`), the payoff model
(`payoff_model.hpp`) and the portfolio risk calculator
(`portfolio_calculator.hpp`), together with theorems settling the stated
properties of these components.

Real arithmetic is embedded as exact rational arithmetic (`ℚ`).  The
transcendental primitives used by the code (`std::exp`, `std::log`,
`std::sqrt` and the Abramowitz-Stegun normal CDF/PDF of `FastMath`) are
abstracted as a structure of function parameters `MathPrims`: every
control-flow, caching and aggregation property proved below holds for an
arbitrary instantiation of these primitives, and concrete evaluations use
an explicit computable instantiation.  Randomness (the Mersenne-Twister
draws of `MonteCarloEngine`) is abstracted as an oracle argument giving
the simulated return of each underlying in each scenario, and the
hardware simulation count (10'000 in the source) is taken as a parameter
so that instances can be evaluated.
-/

namespace Frm

/-- Abstract numeric primitives standing for `std::exp`, `std::log`,
`std::sqrt`, `FastMath::norm_cdf` and `FastMath::norm_pdf`. -/
structure MathPrims where
  exp : ℚ → ℚ
  log : ℚ → ℚ
  sqrt : ℚ → ℚ
  normCdf : ℚ → ℚ
  normPdf : ℚ → ℚ

/-- A concrete computable instantiation of the primitives, used to evaluate
the embedded code at concrete inputs. -/
def testPrims : MathPrims where
  exp := fun _ => 1
  log := fun x => x
  sqrt := fun x => x
  normCdf := fun x => x + 1
  normPdf := fun x => x

namespace FastMath

/-- Embedding of `FastMath::black_scholes_d1_d2` (math_utils.hpp): returns
`(0, 0)` in the degenerate case `T ≤ 0 ∨ vol ≤ 0`, otherwise the closed-form
`d1 = (log(S/K) + (r + vol²/2)·T) / (vol·√T)` and `d2 = d1 − vol·√T`. -/
def black_scholes_d1_d2 (P : MathPrims) (S K T r vol : ℚ) : ℚ × ℚ :=
  if T ≤ 0 ∨ vol ≤ 0 then (0, 0)
  else
    let sqrt_T := P.sqrt T
    let d1 := (P.log (S / K) + (r + 1/2 * vol * vol) * T) / (vol * sqrt_T)
    (d1, d1 - vol * sqrt_T)

end FastMath

/-- Embedding of `enum class RiskError` (types.hpp). -/
inductive RiskError where
  | INVALID_VOLATILITY
  | NEGATIVE_TIME
  | INVALID_STRIKE
  | COMPUTATION_FAILED
  | MISSING_MARKET_DATA
deriving DecidableEq, Repr

/-- Association-list model of `std::unordered_map` lookup (`find`). -/
def mapFind {α β : Type} [DecidableEq α] : List (α × β) → α → Option β
  | [], _ => none
  | (k, v) :: rest, key => if k = key then some v else mapFind rest key

/-- Association-list model of `std::unordered_map` assignment `m[k] = v`. -/
def mapAssign {α β : Type} [DecidableEq α] : List (α × β) → α → β → List (α × β)
  | [], key, v => [(key, v)]
  | (k, w) :: rest, key, v =>
      if k = key then (k, v) :: rest else (k, w) :: mapAssign rest key v

/-- Association-list model of `std::unordered_map` accumulation `m[k] += v`
(an absent key starts at the value-initialized `0.0`). -/
def mapAddTo {α : Type} [DecidableEq α] : List (α × ℚ) → α → ℚ → List (α × ℚ)
  | [], key, v => [(key, v)]
  | (k, w) :: rest, key, v =>
      if k = key then (k, w + v) :: rest else (k, w) :: mapAddTo rest key v

/-- Model of the fixed 6-decimal formatting of `std::to_string(double)`
(`%f`): the printed digit string of `q` is determined by the integer
`round(q·10⁶)` (rounding to nearest; exact ties, immaterial to the
developments below, are taken upward in magnitude). -/
def fix6 (q : ℚ) : ℤ :=
  if 0 ≤ q then ⌊q * 1000000 + 1/2⌋ else -⌊-q * 1000000 + 1/2⌋

/-- A cache key: the quintuple of 6-decimal canonicalizations produced by
concatenating the five `std::to_string` results in
`BlackScholesModel::make_cache_key`. -/
abbrev CacheKey := ℤ × ℤ × ℤ × ℤ × ℤ

/-- The pricing cache `cache_` of one `BlackScholesModel` instance. -/
abbrev Cache := List (CacheKey × ℚ)

namespace BlackScholesModel

/-- Embedding of `BlackScholesModel::make_cache_key` (pricing_models.hpp,
lines 49-66): the key is built from the five numeric inputs `S, K, T, r, vol`
only — the `is_call` flag is not part of the key. -/
def make_cache_key (S K T r vol : ℚ) : CacheKey :=
  (fix6 S, fix6 K, fix6 T, fix6 r, fix6 vol)

/-- The uncached Black-Scholes computation performed by the final branch of
`BlackScholesModel::price`: `S·N(d1) − K·e^{−rT}·N(d2)` for a call and
`K·e^{−rT}·N(−d2) − S·N(−d1)` for a put. -/
def price_formula (P : MathPrims) (S K T r vol : ℚ) (is_call : Bool) : ℚ :=
  let d := FastMath.black_scholes_d1_d2 P S K T r vol
  if is_call then
    S * P.normCdf d.1 - K * P.exp (-r * T) * P.normCdf d.2
  else
    K * P.exp (-r * T) * P.normCdf (-d.2) - S * P.normCdf (-d.1)

/-- Embedding of `BlackScholesModel::price` (pricing_models.hpp, lines
81-184).  The mutable member cache is threaded explicitly: the function maps
the cache state before the call to the cache state after the call, paired
with the `expected<double, RiskError>` result. -/
def price (P : MathPrims) (cache : Cache) (S K T r vol : ℚ)
    (is_call : Bool) : Cache × Except RiskError ℚ :=
  if vol ≤ 0 then (cache, Except.error RiskError.INVALID_VOLATILITY)
  else if T < 0 then (cache, Except.error RiskError.NEGATIVE_TIME)
  else if K ≤ 0 ∨ S ≤ 0 then (cache, Except.error RiskError.INVALID_STRIKE)
  else if T = 0 then
    (cache, Except.ok (if is_call then max (S - K) 0 else max (K - S) 0))
  else
    let cache_key := make_cache_key S K T r vol
    match mapFind cache cache_key with
    | some v => (cache, Except.ok v)
    | none =>
        let p := price_formula P S K T r vol is_call
        (mapAssign cache cache_key p, Except.ok p)

/-- Embedding of `BlackScholesModel::delta` (pricing_models.hpp). -/
def delta (P : MathPrims) (S K T r vol : ℚ) (is_call : Bool) : ℚ :=
  if T ≤ 0 ∨ vol ≤ 0 then
    if is_call then (if S > K then 1 else 0) else (if S < K then -1 else 0)
  else
    let d := FastMath.black_scholes_d1_d2 P S K T r vol
    if is_call then P.normCdf d.1 else P.normCdf d.1 - 1

/-- Embedding of `BlackScholesModel::gamma` (pricing_models.hpp). -/
def gamma (P : MathPrims) (S K T r vol : ℚ) : ℚ :=
  if T ≤ 0 ∨ vol ≤ 0 then 0
  else
    let d := FastMath.black_scholes_d1_d2 P S K T r vol
    P.normPdf d.1 / (S * vol * P.sqrt T)

/-- Embedding of `BlackScholesModel::vega` (pricing_models.hpp). -/
def vega (P : MathPrims) (S K T r vol : ℚ) : ℚ :=
  if T ≤ 0 ∨ vol ≤ 0 then 0
  else
    let d := FastMath.black_scholes_d1_d2 P S K T r vol
    S * P.normPdf d.1 * P.sqrt T / 100

/-- Embedding of `BlackScholesModel::theta` (pricing_models.hpp). -/
def theta (P : MathPrims) (S K T r vol : ℚ) (is_call : Bool) : ℚ :=
  if T ≤ 0 ∨ vol ≤ 0 then 0
  else
    let d := FastMath.black_scholes_d1_d2 P S K T r vol
    let sqrt_T := P.sqrt T
    let term1 := -S * P.normPdf d.1 * vol / (2 * sqrt_T)
    let term2 := r * K * P.exp (-r * T)
    if is_call then (term1 - term2 * P.normCdf d.2) / 365
    else (term1 + term2 * P.normCdf (-d.2)) / 365

/-- Embedding of `struct BlackScholesModel::Greeks`. -/
structure Greeks where
  delta : ℚ
  gamma : ℚ
  vega : ℚ
  theta : ℚ
deriving DecidableEq, Repr

/-- Embedding of `BlackScholesModel::calculate_all_greeks`
(pricing_models.hpp, lines 323-375): computes `d1, d2, N'(d1)` once and
derives all four Greeks from the shared intermediates. -/
def calculate_all_greeks (P : MathPrims) (S K T r vol : ℚ)
    (is_call : Bool) : Greeks :=
  if T ≤ 0 ∨ vol ≤ 0 then
    { delta := if is_call then (if S > K then 1 else 0)
               else (if S < K then -1 else 0)
      gamma := 0
      vega := 0
      theta := 0 }
  else
    let d := FastMath.black_scholes_d1_d2 P S K T r vol
    let sqrt_T := P.sqrt T
    let pdf_d1 := P.normPdf d.1
    let delta_val := if is_call then P.normCdf d.1 else P.normCdf d.1 - 1
    let gamma_val := pdf_d1 / (S * vol * sqrt_T)
    let vega_val := S * pdf_d1 * sqrt_T / 100
    let term1 := -S * pdf_d1 * vol / (2 * sqrt_T)
    let term2 := r * K * P.exp (-r * T)
    let theta_val := if is_call then (term1 - term2 * P.normCdf d.2) / 365
                     else (term1 + term2 * P.normCdf (-d.2)) / 365
    { delta := delta_val, gamma := gamma_val, vega := vega_val,
      theta := theta_val }

end BlackScholesModel

namespace MonteCarloEngine

/-- Ascending sort, the embedding of `std::sort(begin, end)` on a buffer of
returns.  A sorted permutation of a list of rationals is unique, so any
correct sorting algorithm embeds `std::sort` faithfully. -/
def sortAscending (l : List ℚ) : List ℚ :=
  List.insertionSort (· ≤ ·) l

/-- Embedding of `MonteCarloEngine::calculate_var_es` (monte_carlo.hpp,
lines 756-829 of pricing_models.hpp): sort a copy of the returns ascending,
take `var_index = (size_t)((1−confidence)·N)`, return `(0,0)` defensively if
`var_index ≥ N`, else `VaR = −sorted[var_index]` and `ES` the negated mean of
the first `var_index` sorted returns (`0` when `var_index = 0`).  The
`size_t` cast of the non-negative index value is `Int.toNat ∘ Int.floor`. -/
def calculate_var_es (returns : List ℚ) (confidence : ℚ) : ℚ × ℚ :=
  let sorted_returns := sortAscending returns
  let var_index : ℕ :=
    (⌊(1 - confidence) * (sorted_returns.length : ℚ)⌋).toNat
  if var_index ≥ sorted_returns.length then (0, 0)
  else
    let var := -(sorted_returns.getD var_index 0)
    let es := if 0 < var_index then
        -((sorted_returns.take var_index).sum) / (var_index : ℚ)
      else 0
    (var, es)

/-- Embedding of `MonteCarloEngine::calculate_var_es_batch`: sorts once and
reuses the sorted buffer for every requested confidence level. -/
def calculate_var_es_batch (returns : List ℚ)
    (confidence_levels : List ℚ) : List (ℚ × ℚ) :=
  let sorted_returns := sortAscending returns
  confidence_levels.map fun confidence =>
    let var_index : ℕ :=
      (⌊(1 - confidence) * (sorted_returns.length : ℚ)⌋).toNat
    if var_index ≥ sorted_returns.length then (0, 0)
    else
      (-(sorted_returns.getD var_index 0),
       if 0 < var_index then
         -((sorted_returns.take var_index).sum) / (var_index : ℚ)
       else 0)

/-- Memory model for the frame property of the VaR/ES reducers: the caller's
return buffer (passed by const reference) and the local copy
`sorted_returns` built inside the function body. -/
structure VarEsFrame where
  caller_returns : List ℚ
  sorted_returns : List ℚ
deriving DecidableEq, Repr

/-- Statement `std::vector<double> sorted_returns(returns.begin(),
returns.end())`: reads the caller's buffer into the local copy. -/
def var_es_copy_stmt (m : VarEsFrame) : VarEsFrame :=
  { m with sorted_returns := m.caller_returns }

/-- Statement `std::sort(sorted_returns.begin(), sorted_returns.end())`:
sorts the local copy in place. -/
def var_es_sort_stmt (m : VarEsFrame) : VarEsFrame :=
  { m with sorted_returns := sortAscending m.sorted_returns }

/-- The index/VaR/ES computation of `calculate_var_es` after the sort,
reading only the local `sorted_returns`. -/
def var_es_reduce (m : VarEsFrame) (confidence : ℚ) : ℚ × ℚ :=
  let var_index : ℕ :=
    (⌊(1 - confidence) * (m.sorted_returns.length : ℚ)⌋).toNat
  if var_index ≥ m.sorted_returns.length then (0, 0)
  else
    (-(m.sorted_returns.getD var_index 0),
     if 0 < var_index then
       -((m.sorted_returns.take var_index).sum) / (var_index : ℚ)
     else 0)

/-- Statement-by-statement execution of `calculate_var_es` over the explicit
memory model, returning the result together with the caller's buffer as it
stands after the call. -/
def calculate_var_es_exec (returns : List ℚ)
    (confidence : ℚ) : (ℚ × ℚ) × List ℚ :=
  let m0 : VarEsFrame := { caller_returns := returns, sorted_returns := [] }
  let m1 := var_es_sort_stmt (var_es_copy_stmt m0)
  (var_es_reduce m1 confidence, m1.caller_returns)

/-- Statement-by-statement execution of `calculate_var_es_batch` over the
explicit memory model. -/
def calculate_var_es_batch_exec (returns : List ℚ)
    (confidence_levels : List ℚ) : List (ℚ × ℚ) × List ℚ :=
  let m0 : VarEsFrame := { caller_returns := returns, sorted_returns := [] }
  let m1 := var_es_sort_stmt (var_es_copy_stmt m0)
  (confidence_levels.map (fun confidence => var_es_reduce m1 confidence),
   m1.caller_returns)

end MonteCarloEngine

/-- Embedding of `enum class OptionType` (payoff_model.hpp). -/
inductive OptionType where
  | EUROPEAN_CALL
  | EUROPEAN_PUT
  | ASIAN_CALL
  | ASIAN_PUT
  | BARRIER_CALL_KNOCKOUT
  | LOOKBACK_CALL
  | DIGITAL_CALL
deriving DecidableEq, Repr

namespace PayoffModel

/-- The value of `*std::max_element` on a non-empty buffer (the empty case
is guarded before every use). -/
def listMax : List ℚ → ℚ
  | [] => 0
  | p :: ps => ps.foldl max p

/-- Embedding of `PayoffModel::calculate_asian_call_payoff`. -/
def calculate_asian_call_payoff (price_path : List ℚ) (K : ℚ) : ℚ :=
  if price_path = [] then 0
  else max (price_path.sum / (price_path.length : ℚ) - K) 0

/-- Embedding of `PayoffModel::calculate_asian_put_payoff`. -/
def calculate_asian_put_payoff (price_path : List ℚ) (K : ℚ) : ℚ :=
  if price_path = [] then 0
  else max (K - price_path.sum / (price_path.length : ℚ)) 0

/-- Embedding of `PayoffModel::calculate_barrier_knockout_payoff`
(payoff_model.hpp, lines 125-139): an empty path yields `0`; otherwise the
path is scanned and any sampled price `≤ barrier` knocks the option out
(payoff `0`); if the barrier is never touched the payoff is the European
call payoff `max(S_final − K, 0)`. -/
def calculate_barrier_knockout_payoff (price_path : List ℚ)
    (S_final K barrier : ℚ) : ℚ :=
  if price_path = [] then 0
  else if price_path.any (fun price => decide (price ≤ barrier)) then 0
  else max (S_final - K) 0

/-- Embedding of `PayoffModel::calculate_lookback_call_payoff`. -/
def calculate_lookback_call_payoff (price_path : List ℚ) (K : ℚ) : ℚ :=
  if price_path = [] then 0
  else max (listMax price_path - K) 0

/-- Embedding of the dispatcher `PayoffModel::calculate_payoff`
(payoff_model.hpp, lines 59-94). -/
def calculate_payoff (option_type : OptionType) (S_final K : ℚ)
    (price_path : List ℚ := []) (barrier : ℚ := 0)
    (payout_amount : ℚ := 1) : ℚ :=
  match option_type with
  | OptionType.EUROPEAN_CALL => max (S_final - K) 0
  | OptionType.EUROPEAN_PUT => max (K - S_final) 0
  | OptionType.ASIAN_CALL => calculate_asian_call_payoff price_path K
  | OptionType.ASIAN_PUT => calculate_asian_put_payoff price_path K
  | OptionType.BARRIER_CALL_KNOCKOUT =>
      calculate_barrier_knockout_payoff price_path S_final K barrier
  | OptionType.LOOKBACK_CALL => calculate_lookback_call_payoff price_path K
  | OptionType.DIGITAL_CALL => if S_final > K then payout_amount else 0

end PayoffModel

/-- Embedding of `struct Position` (types.hpp). -/
structure Position where
  instrument_id : String
  underlying : String
  notional : ℚ
  strike : ℚ
  maturity : ℚ
  is_call : Bool
deriving DecidableEq, Repr

/-- Embedding of `Position::is_valid` (types.hpp, lines 161-166). -/
def Position.is_valid (pos : Position) : Bool :=
  decide (pos.underlying ≠ "" ∧ pos.notional ≠ 0 ∧
          0 < pos.strike ∧ 0 ≤ pos.maturity)

namespace PortfolioRiskCalculator

/-- Embedding of `PortfolioRiskCalculator::MarketData`
(portfolio_calculator.hpp, lines 123-159). -/
structure MarketData where
  spot_prices : List (String × ℚ)
  volatilities : List (String × ℚ)
  risk_free_rate : ℚ
deriving DecidableEq, Repr

/-- Embedding of `MarketData::is_complete_for_position`
(portfolio_calculator.hpp, lines 147-158): both the spot price and the
volatility of the position's underlying must be present. -/
def MarketData.is_complete_for_position (md : MarketData)
    (pos : Position) : Bool :=
  (mapFind md.spot_prices pos.underlying).isSome &&
  (mapFind md.volatilities pos.underlying).isSome

/-- The value of `spot_prices.at(u)` in contexts where the completeness
filter guarantees the key is present. -/
def MarketData.spotAt (md : MarketData) (u : String) : ℚ :=
  (mapFind md.spot_prices u).getD 0

/-- The value of `volatilities.at(u)` in contexts where the completeness
filter guarantees the key is present. -/
def MarketData.volAt (md : MarketData) (u : String) : ℚ :=
  (mapFind md.volatilities u).getD 0

/-- Embedding of `PortfolioRiskCalculator::RiskMetrics`
(portfolio_calculator.hpp, lines 51-116).  The wall-clock
`calculation_time_us` diagnostic is outside the numeric model and omitted;
every other field is embedded with its value-initialized default. -/
structure RiskMetrics where
  portfolio_value : ℚ := 0
  delta_by_underlying : List (String × ℚ) := []
  gamma_by_underlying : List (String × ℚ) := []
  vega_by_underlying : List (String × ℚ) := []
  theta_by_underlying : List (String × ℚ) := []
  var_95 : ℚ := 0
  es_95 : ℚ := 0
  var_99 : ℚ := 0
  es_99 : ℚ := 0
  var_999 : ℚ := 0
  es_999 : ℚ := 0
  monte_carlo_simulations : ℕ := 0
deriving DecidableEq, Repr

/-- Embedding of `PortfolioRiskCalculator::filter_valid_positions`
(portfolio_calculator.hpp, lines 348-372): keep exactly the positions that
are individually valid and for which market data is complete. -/
def filter_valid_positions (positions : List Position)
    (md : MarketData) : List Position :=
  positions.filter fun pos =>
    pos.is_valid && md.is_complete_for_position pos

/-- The per-position loop of `calculate_portfolio_greeks`: for each position
in order, price it through the (threaded) model cache and compute its four
notional-weighted Greeks, producing the rows
`(value, delta, gamma, vega, theta)` of the pre-allocated arrays.  A failed
pricing leaves the position's value at the pre-allocated `0.0`. -/
def position_rows (P : MathPrims) (md : MarketData) :
    Cache → List Position → Cache × List (ℚ × ℚ × ℚ × ℚ × ℚ)
  | cache, [] => (cache, [])
  | cache, pos :: rest =>
      let S := md.spotAt pos.underlying
      let vol := md.volAt pos.underlying
      let pr := BlackScholesModel.price P cache S pos.strike pos.maturity
        md.risk_free_rate vol pos.is_call
      let value := match pr.2 with
        | Except.ok v => v * pos.notional
        | Except.error _ => 0
      let g := BlackScholesModel.calculate_all_greeks P S pos.strike
        pos.maturity md.risk_free_rate vol pos.is_call
      let next := position_rows P md pr.1 rest
      (next.1,
       (value, g.delta * pos.notional, g.gamma * pos.notional,
        g.vega * pos.notional, g.theta * pos.notional) :: next.2)

/-- The aggregation loop of `calculate_portfolio_greeks`: fold the rows into
the four per-underlying accumulator maps via `m[underlying] += value`. -/
def aggregate_greeks :
    List Position → List (ℚ × ℚ × ℚ × ℚ × ℚ) →
    List (String × ℚ) → List (String × ℚ) →
    List (String × ℚ) → List (String × ℚ) →
    List (String × ℚ) × List (String × ℚ) ×
    List (String × ℚ) × List (String × ℚ)
  | pos :: ps, row :: rows, dm, gm, vm, tm =>
      aggregate_greeks ps rows
        (mapAddTo dm pos.underlying row.2.1)
        (mapAddTo gm pos.underlying row.2.2.1)
        (mapAddTo vm pos.underlying row.2.2.2.1)
        (mapAddTo tm pos.underlying row.2.2.2.2)
  | _, _, dm, gm, vm, tm => (dm, gm, vm, tm)

/-- Embedding of `PortfolioRiskCalculator::calculate_portfolio_greeks`
(portfolio_calculator.hpp, lines 379-499): prices every position, sums the
position values into `portfolio_value` and accumulates the notional-weighted
Greeks per underlying.  The `RiskMetrics` out-parameter is threaded. -/
def calculate_portfolio_greeks (P : MathPrims) (cache : Cache)
    (positions : List Position) (md : MarketData)
    (metrics : RiskMetrics) : Cache × RiskMetrics :=
  let rows := position_rows P md cache positions
  let agg := aggregate_greeks positions rows.2
    metrics.delta_by_underlying metrics.gamma_by_underlying
    metrics.vega_by_underlying metrics.theta_by_underlying
  (rows.1,
   { metrics with
     portfolio_value := (rows.2.map fun row => row.1).sum
     delta_by_underlying := agg.1
     gamma_by_underlying := agg.2.1
     vega_by_underlying := agg.2.2.1
     theta_by_underlying := agg.2.2.2 })

/-- The inner position loop of one Monte Carlo scenario
(portfolio_calculator.hpp, lines 584-621): revalue every position at the
unshocked spot and at the shocked spot `S·(1 + return)`, accumulating
`base_pv` and `shocked_pv`; the model cache is threaded through both pricing
calls of every position. -/
def scenario_pvs (P : MathPrims) (md : MarketData) (shock : String → ℚ) :
    Cache → List Position → Cache × ℚ × ℚ
  | cache, [] => (cache, 0, 0)
  | cache, pos :: rest =>
      let S_base := md.spotAt pos.underlying
      let S_shocked := S_base * (1 + shock pos.underlying)
      let vol := md.volAt pos.underlying
      let bp := BlackScholesModel.price P cache S_base pos.strike
        pos.maturity md.risk_free_rate vol pos.is_call
      let sp := BlackScholesModel.price P bp.1 S_shocked pos.strike
        pos.maturity md.risk_free_rate vol pos.is_call
      let next := scenario_pvs P md shock sp.1 rest
      (next.1,
       (match bp.2 with
        | Except.ok v => v * pos.notional
        | Except.error _ => 0) + next.2.1,
       (match sp.2 with
        | Except.ok v => v * pos.notional
        | Except.error _ => 0) + next.2.2)

/-- The divisor of the portfolio-return formula of one scenario:
`|base_pv|`.  The source divides by it unconditionally. -/
def scenario_divisor (P : MathPrims) (md : MarketData) (shock : String → ℚ)
    (cache : Cache) (positions : List Position) : ℚ :=
  |(scenario_pvs P md shock cache positions).2.1|

/-- One scenario of `calculate_monte_carlo_var` (portfolio_calculator.hpp,
line 627): `portfolio_return = (shocked_pv − base_pv) / |base_pv|`, with no
guard against `base_pv = 0`. -/
def scenario_return (P : MathPrims) (md : MarketData) (shock : String → ℚ)
    (cache : Cache) (positions : List Position) : Cache × ℚ :=
  let r := scenario_pvs P md shock cache positions
  (r.1, (r.2.2 - r.2.1) / |r.2.1|)

/-- The scenario loop of `calculate_monte_carlo_var`, collecting the
portfolio return of every simulated scenario index. -/
def portfolio_returns_loop (P : MathPrims) (md : MarketData)
    (rets : String → ℕ → ℚ) (positions : List Position) :
    Cache → List ℕ → Cache × List ℚ
  | cache, [] => (cache, [])
  | cache, sim :: sims =>
      let r := scenario_return P md (fun u => rets u sim) cache positions
      let next := portfolio_returns_loop P md rets positions r.1 sims
      (next.1, r.2 :: next.2)

/-- Embedding of `PortfolioRiskCalculator::calculate_monte_carlo_var`
(portfolio_calculator.hpp, lines 506-662).  The per-underlying simulated
one-day returns are abstracted as the oracle `rets` (underlying, scenario
index ↦ simulated return) and the simulation count (10'000 in the source)
is the parameter `n_simulations`. -/
def calculate_monte_carlo_var (P : MathPrims) (cache : Cache)
    (positions : List Position) (md : MarketData)
    (rets : String → ℕ → ℚ) (n_simulations : ℕ)
    (metrics : RiskMetrics) : Cache × RiskMetrics :=
  let pr := portfolio_returns_loop P md rets positions cache
    (List.range n_simulations)
  let res := MonteCarloEngine.calculate_var_es_batch pr.2
    [95/100, 99/100, 999/1000]
  (pr.1,
   { metrics with
     monte_carlo_simulations := n_simulations
     var_95 := (res.getD 0 (0, 0)).1
     es_95 := (res.getD 0 (0, 0)).2
     var_99 := (res.getD 1 (0, 0)).1
     es_99 := (res.getD 1 (0, 0)).2
     var_999 := (res.getD 2 (0, 0)).1
     es_999 := (res.getD 2 (0, 0)).2 })

/-- Embedding of `PortfolioRiskCalculator::calculate_portfolio_risk`
(portfolio_calculator.hpp, lines 194-258): filter the positions, return the
default-initialized metrics if none survive, otherwise aggregate the Greeks
and run the Monte Carlo VaR, threading the model cache throughout. -/
def calculate_portfolio_risk (P : MathPrims) (cache : Cache)
    (rets : String → ℕ → ℚ) (n_simulations : ℕ)
    (positions : List Position) (md : MarketData) : Cache × RiskMetrics :=
  let metrics : RiskMetrics := {}
  let valid_positions := filter_valid_positions positions md
  if valid_positions = [] then (cache, metrics)
  else
    let g := calculate_portfolio_greeks P cache valid_positions md metrics
    calculate_monte_carlo_var P g.1 valid_positions md rets
      n_simulations g.2

end PortfolioRiskCalculator

/-! ### Helper lemmas -/

/-- Floor evaluation helper: `⌊q⌋ = n` follows from `n ≤ q < n + 1`. -/
theorem floor_rat_eq {q : ℚ} {n : ℤ} (h1 : (n : ℚ) ≤ q) (h2 : q < n + 1) :
    ⌊q⌋ = n :=
  Int.floor_eq_iff.mpr ⟨h1, h2⟩

/-- Evaluation of `fix6` on a non-negative rational. -/
theorem fix6_eval {q : ℚ} {n : ℤ} (h0 : 0 ≤ q) (h1 : (n : ℚ) ≤ q * 1000000 + 1/2)
    (h2 : q * 1000000 + 1/2 < n + 1) : fix6 q = n := by
  rw [fix6, if_pos h0]
  exact floor_rat_eq h1 h2

/-! ### C7: all Greeks computed in one pass agree with the individual ones -/

/-- C7.  For every input `(S, K, T, r, vol, is_call)` and every
instantiation of the numeric primitives, `calculate_all_greeks` returns
exactly the four values of the individually-computed `delta`, `gamma`,
`vega` and `theta`, including the degenerate case `T ≤ 0 ∨ vol ≤ 0` where
all return the expiry-limit values. -/
theorem c7_greeks_consistency (P : MathPrims) (S K T r vol : ℚ)
    (is_call : Bool) :
    BlackScholesModel.calculate_all_greeks P S K T r vol is_call =
      { delta := BlackScholesModel.delta P S K T r vol is_call
        gamma := BlackScholesModel.gamma P S K T r vol
        vega := BlackScholesModel.vega P S K T r vol
        theta := BlackScholesModel.theta P S K T r vol is_call } := by
  by_cases h : T ≤ 0 ∨ vol ≤ 0 <;>
    simp [BlackScholesModel.calculate_all_greeks, BlackScholesModel.delta,
      BlackScholesModel.gamma, BlackScholesModel.vega,
      BlackScholesModel.theta, h]

/-! ### C10: the VaR/ES reducers do not mutate the caller's returns -/

/-- C10.  Executing `calculate_var_es` and `calculate_var_es_batch` over the
explicit memory model leaves the caller's return buffer unchanged (both sort
a private copy), and the results agree with the direct embeddings. -/
theorem c10_reducers_sort_private_copy (returns : List ℚ) (confidence : ℚ)
    (confidence_levels : List ℚ) :
    (MonteCarloEngine.calculate_var_es_exec returns confidence).2 = returns ∧
    (MonteCarloEngine.calculate_var_es_exec returns confidence).1 =
      MonteCarloEngine.calculate_var_es returns confidence ∧
    (MonteCarloEngine.calculate_var_es_batch_exec returns
      confidence_levels).2 = returns ∧
    (MonteCarloEngine.calculate_var_es_batch_exec returns
      confidence_levels).1 =
      MonteCarloEngine.calculate_var_es_batch returns confidence_levels :=
  ⟨rfl, rfl, rfl, rfl⟩

/-! ### C6: input validation and the immediate-expiry branch of price -/

/-- C6.  `BlackScholesModel::price` returns typed error values in the
validation order of the source — `INVALID_VOLATILITY` when `vol ≤ 0`,
`NEGATIVE_TIME` when `T < 0` (and `vol > 0`), `INVALID_STRIKE` when
`K ≤ 0 ∨ S ≤ 0` (and `vol > 0`, `T ≥ 0`) — leaving the cache untouched; and
with otherwise valid inputs and `T = 0` it returns the intrinsic value
immediately, neither consulting nor modifying the cache (the cache state is
returned unchanged and the result is independent of its contents). -/
theorem c6_price_validation_and_expiry (P : MathPrims) (cache : Cache)
    (S K T r vol : ℚ) (is_call : Bool) :
    (vol ≤ 0 → BlackScholesModel.price P cache S K T r vol is_call =
      (cache, Except.error RiskError.INVALID_VOLATILITY)) ∧
    (0 < vol → T < 0 → BlackScholesModel.price P cache S K T r vol is_call =
      (cache, Except.error RiskError.NEGATIVE_TIME)) ∧
    (0 < vol → 0 ≤ T → K ≤ 0 ∨ S ≤ 0 →
      BlackScholesModel.price P cache S K T r vol is_call =
        (cache, Except.error RiskError.INVALID_STRIKE)) ∧
    (0 < vol → 0 < K → 0 < S → T = 0 →
      BlackScholesModel.price P cache S K T r vol is_call =
        (cache, Except.ok
          (if is_call then max (S - K) 0 else max (K - S) 0))) := by
  refine ⟨fun h => ?_, fun h0 h1 => ?_, fun h0 h1 h2 => ?_,
    fun h0 h1 h2 h3 => ?_⟩
  · rw [BlackScholesModel.price, if_pos h]
  · rw [BlackScholesModel.price, if_neg (not_le.mpr h0), if_pos h1]
  · rw [BlackScholesModel.price, if_neg (not_le.mpr h0),
      if_neg (not_lt.mpr h1), if_pos h2]
  · subst h3
    rw [BlackScholesModel.price, if_neg (not_le.mpr h0),
      if_neg (by norm_num : ¬(0 : ℚ) < 0),
      if_neg (by push_neg; exact ⟨h1, h2⟩), if_pos rfl]

/-- Witness for C6: the four branches evaluated at concrete inputs; the
`T = 0` branch is exercised with a poisoned cache entry under the key of the
very inputs being priced, showing the cache is not consulted. -/
theorem c6_price_validation_and_expiry_witness :
    (BlackScholesModel.price testPrims [] 1 1 1 0 0 true =
      ([], Except.error RiskError.INVALID_VOLATILITY)) ∧
    (BlackScholesModel.price testPrims [] 1 1 (-1) 0 1 true =
      ([], Except.error RiskError.NEGATIVE_TIME)) ∧
    (BlackScholesModel.price testPrims [] 1 0 1 0 1 true =
      ([], Except.error RiskError.INVALID_STRIKE)) ∧
    (BlackScholesModel.price testPrims
      [(BlackScholesModel.make_cache_key 5 3 0 0 1, 42)] 5 3 0 0 1 true =
      ([(BlackScholesModel.make_cache_key 5 3 0 0 1, 42)], Except.ok 2)) := by
  refine ⟨?_, ?_, ?_, ?_⟩
  · exact (c6_price_validation_and_expiry testPrims [] 1 1 1 0 0 true).1
      (by norm_num)
  · exact (c6_price_validation_and_expiry testPrims [] 1 1 (-1) 0 1
      true).2.1 (by norm_num) (by norm_num)
  · exact (c6_price_validation_and_expiry testPrims [] 1 0 1 0 1
      true).2.2.1 (by norm_num) (by norm_num) (by norm_num)
  · have h := (c6_price_validation_and_expiry testPrims
      [(BlackScholesModel.make_cache_key 5 3 0 0 1, 42)] 5 3 0 0 1
      true).2.2.2 (by norm_num) (by norm_num) (by norm_num) rfl
    rw [h]
    norm_num

/-! ### C4: barrier-knockout payoff -/

/-- Counterexample for C4 as stated: the empty path touches no barrier
sample, yet the payoff is `0` and not the European call payoff
`max(S_final − K, 0) = 10` at `S_final = 110`, `K = 100`, `barrier = 95`. -/
theorem c4_barrier_empty_path_counterexample :
    PayoffModel.calculate_payoff OptionType.BARRIER_CALL_KNOCKOUT
        110 100 [] 95 1 = 0 ∧
    (([] : List ℚ).all fun price => decide (95 < price)) = true ∧
    max ((110 : ℚ) - 100) 0 = 10 ∧ (0 : ℚ) ≠ 10 := by
  refine ⟨?_, rfl, by norm_num, by norm_num⟩
  simp [PayoffModel.calculate_payoff,
    PayoffModel.calculate_barrier_knockout_payoff]

/-- C4 amended.  For every non-empty price path the Barrier-Knockout Call
payoff of `PayoffModel::calculate_payoff` is `0` whenever any sampled price
is `≤ barrier` and otherwise equals the European call payoff
`max(S_final − K, 0)`; an empty path yields payoff `0`. -/
theorem c4_barrier_knockout_amended (price_path : List ℚ)
    (S_final K barrier payout_amount : ℚ) :
    (price_path = [] →
      PayoffModel.calculate_payoff OptionType.BARRIER_CALL_KNOCKOUT
        S_final K price_path barrier payout_amount = 0) ∧
    ((∃ price ∈ price_path, price ≤ barrier) →
      PayoffModel.calculate_payoff OptionType.BARRIER_CALL_KNOCKOUT
        S_final K price_path barrier payout_amount = 0) ∧
    (price_path ≠ [] → (∀ price ∈ price_path, barrier < price) →
      PayoffModel.calculate_payoff OptionType.BARRIER_CALL_KNOCKOUT
        S_final K price_path barrier payout_amount =
        max (S_final - K) 0) := by
  refine ⟨fun h => ?_, fun h => ?_, fun h1 h2 => ?_⟩
  · subst h
    simp [PayoffModel.calculate_payoff,
      PayoffModel.calculate_barrier_knockout_payoff]
  · obtain ⟨p, hp, hpb⟩ := h
    have hne : price_path ≠ [] := by
      rintro rfl
      simp at hp
    rw [PayoffModel.calculate_payoff,
      PayoffModel.calculate_barrier_knockout_payoff, if_neg hne, if_pos]
    rw [List.any_eq_true]
    exact ⟨p, hp, by simpa using hpb⟩
  · rw [PayoffModel.calculate_payoff,
      PayoffModel.calculate_barrier_knockout_payoff, if_neg h1, if_neg]
    rw [List.any_eq_true]
    rintro ⟨p, hp, hpb⟩
    exact absurd (h2 p hp) (by simpa using hpb)

/-- Witness for C4: a path touching the barrier pays `0`; a path never
touching it pays the European call payoff. -/
theorem c4_barrier_knockout_amended_witness :
    PayoffModel.calculate_payoff OptionType.BARRIER_CALL_KNOCKOUT
        110 100 [100, 90] 95 1 = 0 ∧
    PayoffModel.calculate_payoff OptionType.BARRIER_CALL_KNOCKOUT
        110 100 [100, 98] 95 1 = max ((110 : ℚ) - 100) 0 := by
  constructor
  · refine (c4_barrier_knockout_amended [100, 90] 110 100 95 1).2.1 ?_
    exact ⟨90, by norm_num, by norm_num⟩
  · refine (c4_barrier_knockout_amended [100, 98] 110 100 95 1).2.2
      (by simp) ?_
    intro p hp
    simp only [List.mem_cons, List.mem_singleton] at hp
    rcases hp with rfl | rfl | h
    · norm_num
    · norm_num
    · simp at h

/-! ### C1 and C8: cache-key defects of `BlackScholesModel::price` -/

/-- Evaluation of the call-pricing formula at `(4, 2, 1, 0, 1)` under the
concrete primitives. -/
theorem price_formula_call_eval :
    BlackScholesModel.price_formula testPrims 4 2 1 0 1 true = 9 := by
  norm_num [BlackScholesModel.price_formula, FastMath.black_scholes_d1_d2,
    testPrims]

/-- Evaluation of the put-pricing formula at `(4, 2, 1, 0, 1)` under the
concrete primitives. -/
theorem price_formula_put_eval :
    BlackScholesModel.price_formula testPrims 4 2 1 0 1 false = 5 := by
  norm_num [BlackScholesModel.price_formula, FastMath.black_scholes_d1_d2,
    testPrims]

/-- Evaluation of the first (call) pricing of `(4, 2, 1, 0, 1)` on an empty
cache: the call value `9` is computed and stored. -/
theorem price_first_call_eval :
    BlackScholesModel.price testPrims [] 4 2 1 0 1 true =
      ([(BlackScholesModel.make_cache_key 4 2 1 0 1, 9)], Except.ok 9) := by
  rw [BlackScholesModel.price]
  norm_num [mapFind, mapAssign, price_formula_call_eval]

/-- C1 (evaluation at the failing input).  On one model instance, pricing a
call at `(S, K, T, r, vol) = (4, 2, 1, 0, 1)` stores `9` in the cache; the
subsequent put pricing at the identical numeric inputs returns that cached
call price `9`, although the put formula of the very same model evaluates to
`5 ≠ 9` — because `make_cache_key` omits the call/put side. -/
theorem c1_put_returns_cached_call_price :
    (BlackScholesModel.price testPrims [] 4 2 1 0 1 true).2 =
      Except.ok 9 ∧
    (BlackScholesModel.price testPrims
      (BlackScholesModel.price testPrims [] 4 2 1 0 1 true).1
      4 2 1 0 1 false).2 = Except.ok 9 ∧
    BlackScholesModel.price_formula testPrims 4 2 1 0 1 false = 5 ∧
    (9 : ℚ) ≠ 5 := by
  refine ⟨by rw [price_first_call_eval], ?_, price_formula_put_eval,
    by norm_num⟩
  rw [price_first_call_eval, BlackScholesModel.price]
  norm_num [mapFind]

/-- Collision of the 6-decimal cache keys of two spots differing by
`10⁻⁷`. -/
theorem make_cache_key_collision_eval :
    BlackScholesModel.make_cache_key (40000001/10000000) 2 1 0 1 =
      BlackScholesModel.make_cache_key 4 2 1 0 1 := by
  have h1 : fix6 (40000001/10000000) = 4000000 :=
    fix6_eval (by norm_num) (by norm_num) (by norm_num)
  have h2 : fix6 4 = 4000000 :=
    fix6_eval (by norm_num) (by norm_num) (by norm_num)
  simp [BlackScholesModel.make_cache_key, h1, h2]

/-- C8.  There are two distinct valid input tuples with `T > 0`, differing
by less than `10⁻⁶` in the spot, whose fixed 6-decimal cache keys coincide:
pricing the first stores its Black-Scholes value, and pricing the second on
the same model instance returns that identical cached value — which is not
the Black-Scholes value of the second tuple's own inputs. -/
theorem c8_cache_key_collision :
    ∃ S S2 : ℚ, S ≠ S2 ∧ |S2 - S| < 1/1000000 ∧ 0 < S ∧ 0 < S2 ∧
      BlackScholesModel.make_cache_key S 2 1 0 1 =
        BlackScholesModel.make_cache_key S2 2 1 0 1 ∧
      (BlackScholesModel.price testPrims [] S 2 1 0 1 true).2 =
        Except.ok (BlackScholesModel.price_formula testPrims
          S 2 1 0 1 true) ∧
      (BlackScholesModel.price testPrims
        (BlackScholesModel.price testPrims [] S 2 1 0 1 true).1
        S2 2 1 0 1 true).2 =
        (BlackScholesModel.price testPrims [] S 2 1 0 1 true).2 ∧
      (BlackScholesModel.price testPrims
        (BlackScholesModel.price testPrims [] S 2 1 0 1 true).1
        S2 2 1 0 1 true).2 ≠
        Except.ok (BlackScholesModel.price_formula testPrims
          S2 2 1 0 1 true) := by
  refine ⟨4, 40000001/10000000, by norm_num, by rw [abs_of_nonneg] <;>
    norm_num, by norm_num, by norm_num,
    make_cache_key_collision_eval.symm, ?_, ?_, ?_⟩
  · rw [price_first_call_eval, price_formula_call_eval]
  · rw [price_first_call_eval, BlackScholesModel.price,
      make_cache_key_collision_eval]
    norm_num [mapFind]
  · rw [price_first_call_eval, BlackScholesModel.price,
      make_cache_key_collision_eval]
    norm_num [mapFind]
    norm_num [BlackScholesModel.price_formula,
      FastMath.black_scholes_d1_d2, testPrims]

/-! ### C9: unguarded division by `|base_pv|` in the Monte Carlo loop -/

/-- A non-empty portfolio of valid positions: one out-of-the-money call with
maturity `0` (spot `50` below strike `100`), which prices to `0`. -/
def c9_positions : List Position :=
  [{ instrument_id := "P1", underlying := "WTI", notional := 1,
     strike := 100, maturity := 0, is_call := true }]

/-- Market data complete for `c9_positions`. -/
def c9_market_data : PortfolioRiskCalculator.MarketData :=
  { spot_prices := [("WTI", 50)], volatilities := [("WTI", 1/5)],
    risk_free_rate := 1/20 }

/-- C9.  The portfolio `c9_positions` is non-empty, all its positions are
valid with complete market data (it passes `filter_valid_positions`
unchanged), and in every Monte Carlo scenario — whatever the primitives, the
cache state and the simulated shock — the accumulated `base_pv` is `0`, so
the unguarded scenario return `(shocked_pv − base_pv) / |base_pv|` divides
by zero in every scenario. -/
theorem c9_monte_carlo_divides_by_zero :
    c9_positions ≠ [] ∧
    (c9_positions.all fun pos => pos.is_valid &&
      c9_market_data.is_complete_for_position pos) = true ∧
    PortfolioRiskCalculator.filter_valid_positions c9_positions
      c9_market_data = c9_positions ∧
    ∀ (P : MathPrims) (cache : Cache) (shock : String → ℚ),
      (PortfolioRiskCalculator.scenario_pvs P c9_market_data shock cache
        c9_positions).2.1 = 0 ∧
      PortfolioRiskCalculator.scenario_divisor P c9_market_data shock cache
        c9_positions = 0 := by
  refine ⟨by simp [c9_positions], ?_, ?_, fun P cache shock => ?_⟩
  · simp [c9_positions, c9_market_data, Position.is_valid,
      PortfolioRiskCalculator.MarketData.is_complete_for_position, mapFind]
  · simp [PortfolioRiskCalculator.filter_valid_positions, c9_positions,
      c9_market_data, Position.is_valid,
      PortfolioRiskCalculator.MarketData.is_complete_for_position, mapFind]
  · have hbase : (PortfolioRiskCalculator.scenario_pvs P c9_market_data
        shock cache c9_positions).2.1 = 0 := by
      simp [PortfolioRiskCalculator.scenario_pvs, BlackScholesModel.price,
        PortfolioRiskCalculator.MarketData.spotAt,
        PortfolioRiskCalculator.MarketData.volAt, c9_positions,
        c9_market_data, mapFind]
      norm_num
    exact ⟨hbase, by
      simp [PortfolioRiskCalculator.scenario_divisor, hbase]⟩

/-! ### VaR/ES reducer lemmas (C2 and C3) -/

/-- The embedded `std::sort` produces a sorted list. -/
theorem sortAscending_sorted (l : List ℚ) :
    (MonteCarloEngine.sortAscending l).Sorted (· ≤ ·) :=
  List.sorted_insertionSort _ l

/-- The embedded `std::sort` produces a permutation of its input. -/
theorem sortAscending_perm (l : List ℚ) :
    (MonteCarloEngine.sortAscending l).Perm l :=
  List.perm_insertionSort _ l

/-- Sorting preserves the length. -/
theorem sortAscending_length (l : List ℚ) :
    (MonteCarloEngine.sortAscending l).length = l.length :=
  List.length_insertionSort _ l

/-- Branch lemma: `calculate_var_es` when the VaR index is in bounds. -/
theorem calculate_var_es_of_lt (returns : List ℚ) (confidence : ℚ) (idx : ℕ)
    (hidx : idx = (⌊(1 - confidence) *
      ((MonteCarloEngine.sortAscending returns).length : ℚ)⌋).toNat)
    (h : idx < (MonteCarloEngine.sortAscending returns).length) :
    MonteCarloEngine.calculate_var_es returns confidence =
      (-(MonteCarloEngine.sortAscending returns).getD idx 0,
       if 0 < idx then
         -((MonteCarloEngine.sortAscending returns).take idx).sum / (idx : ℚ)
       else 0) := by
  subst hidx
  simp only [MonteCarloEngine.calculate_var_es]
  rw [if_neg (by omega)]

/-- Branch lemma: `calculate_var_es` when the VaR index is out of bounds. -/
theorem calculate_var_es_of_ge (returns : List ℚ) (confidence : ℚ) (idx : ℕ)
    (hidx : idx = (⌊(1 - confidence) *
      ((MonteCarloEngine.sortAscending returns).length : ℚ)⌋).toNat)
    (h : (MonteCarloEngine.sortAscending returns).length ≤ idx) :
    MonteCarloEngine.calculate_var_es returns confidence = (0, 0) := by
  subst hidx
  simp only [MonteCarloEngine.calculate_var_es]
  rw [if_pos (by omega)]

/-- In a sorted list, `getD` is monotone in the index. -/
theorem sorted_getD_le (l : List ℚ) (hs : l.Sorted (· ≤ ·)) (i j : ℕ)
    (hij : i ≤ j) (hj : j < l.length) : l.getD i 0 ≤ l.getD j 0 := by
  have hi : i < l.length := lt_of_le_of_lt hij hj
  rw [List.getD_eq_getElem l 0 hi, List.getD_eq_getElem l 0 hj]
  rcases eq_or_lt_of_le hij with rfl | h
  · exact le_refl _
  · have := hs.rel_get_of_lt (a := ⟨i, hi⟩) (b := ⟨j, hj⟩) h
    simpa using this

/-- In a sorted list, the sum of the first `i` elements is at most `i` times
the `i`-th element. -/
theorem take_sum_le (l : List ℚ) (hs : l.Sorted (· ≤ ·)) (i : ℕ)
    (hi : i < l.length) : (l.take i).sum ≤ (i : ℚ) * l.getD i 0 := by
  have hlen : (l.take i).length = i := by
    rw [List.length_take]
    exact Nat.min_eq_left hi.le
  have hb : ∀ x ∈ l.take i, x ≤ l.getD i 0 := by
    intro x hx
    obtain ⟨j, hj, hxe⟩ := List.mem_iff_getElem.mp hx
    rw [hlen] at hj
    have hj2 : j < l.length := hj.trans hi
    rw [List.getElem_take] at hxe
    rw [← hxe, List.getD_eq_getElem l 0 hi]
    have := hs.rel_get_of_lt (a := ⟨j, hj2⟩) (b := ⟨i, hi⟩) hj
    simpa using this
  calc (l.take i).sum ≤ (l.take i).length • (l.getD i 0) :=
        List.sum_le_card_nsmul _ _ hb
    _ = (i : ℚ) * l.getD i 0 := by rw [hlen, nsmul_eq_mul]

/-- C2.  For every return sample and every confidence level at most `1`,
`calculate_var_es` behaves exactly as specified: the working list is an
ascending sort of the sample; the VaR index `⌊(1 − confidence)·N⌋` is
non-negative; when it is in bounds the result is
`(−sorted[idx], −mean(sorted[0..idx)))` (with ES `0` when `idx = 0`), and
when it is out of bounds the result is `(0, 0)` instead of an out-of-bounds
read. -/
theorem c2_var_es_matches_spec (returns : List ℚ) (confidence : ℚ)
    (h1 : confidence ≤ 1) :
    0 ≤ ⌊(1 - confidence) * (returns.length : ℚ)⌋ ∧
    (MonteCarloEngine.sortAscending returns).Sorted (· ≤ ·) ∧
    (MonteCarloEngine.sortAscending returns).Perm returns ∧
    (⌊(1 - confidence) * (returns.length : ℚ)⌋ < (returns.length : ℤ) →
      MonteCarloEngine.calculate_var_es returns confidence =
        (-(MonteCarloEngine.sortAscending returns).getD
            (⌊(1 - confidence) * (returns.length : ℚ)⌋).toNat 0,
         if ⌊(1 - confidence) * (returns.length : ℚ)⌋ = 0 then 0
         else -((MonteCarloEngine.sortAscending returns).take
             (⌊(1 - confidence) * (returns.length : ℚ)⌋).toNat).sum /
           ((⌊(1 - confidence) * (returns.length : ℚ)⌋ : ℤ) : ℚ))) ∧
    ((returns.length : ℤ) ≤ ⌊(1 - confidence) * (returns.length : ℚ)⌋ →
      MonteCarloEngine.calculate_var_es returns confidence = (0, 0)) := by
  have hlen := sortAscending_length returns
  have hz : (0 : ℤ) ≤ ⌊(1 - confidence) * (returns.length : ℚ)⌋ :=
    Int.floor_nonneg.mpr (mul_nonneg (by linarith) (Nat.cast_nonneg _))
  have hidx : (⌊(1 - confidence) * (returns.length : ℚ)⌋).toNat =
      (⌊(1 - confidence) *
        ((MonteCarloEngine.sortAscending returns).length : ℚ)⌋).toNat := by
    rw [hlen]
  refine ⟨hz, sortAscending_sorted _, sortAscending_perm _,
    fun hlt => ?_, fun hge => ?_⟩
  · rw [calculate_var_es_of_lt returns confidence _ hidx
      (by rw [hlen]; omega)]
    by_cases hz0 : ⌊(1 - confidence) * (returns.length : ℚ)⌋ = 0
    · rw [if_neg (by omega), if_pos hz0]
    · rw [if_pos (by omega), if_neg hz0]
      have hcast : (((⌊(1 - confidence) *
          (returns.length : ℚ)⌋).toNat : ℕ) : ℚ) =
          ((⌊(1 - confidence) * (returns.length : ℚ)⌋ : ℤ) : ℚ) :=
        (Int.cast_natCast _).symm.trans
          (by rw [Int.toNat_of_nonneg hz])
      rw [hcast]
  · exact calculate_var_es_of_ge returns confidence _ hidx
      (by rw [hlen]; omega)

/-- Witness for C2: the reducer evaluated on a concrete three-element sample
at confidence `1/2` (index `⌊3/2⌋ = 1`): VaR `= −sorted[1] = −1/100`,
ES `= −(−3/100)/1 = 3/100`. -/
theorem c2_var_es_matches_spec_witness :
    ((1 : ℚ)/2 ≤ 1) ∧
    MonteCarloEngine.calculate_var_es [-(3/100), 1/100, 2/100] (1/2) =
      (-(1/100), 3/100) := by
  refine ⟨by norm_num, ?_⟩
  have hfl : ⌊(1 - (1:ℚ)/2) *
      (([-(3/100), 1/100, 2/100] : List ℚ).length : ℚ)⌋ = 1 :=
    floor_rat_eq (by norm_num) (by norm_num)
  have h := (c2_var_es_matches_spec [-(3/100), 1/100, 2/100] (1/2)
    (by norm_num)).2.2.2.1 (by rw [hfl]; norm_num)
  rw [h, hfl]
  have hsort : MonteCarloEngine.sortAscending [-(3/100), 1/100, 2/100] =
      [-(3/100), 1/100, 2/100] := by
    norm_num [MonteCarloEngine.sortAscending, List.insertionSort,
      List.orderedInsert]
  rw [hsort]
  norm_num [List.getD]

/-- Counterexample for C3 as stated: on the sample `[−1/10]` at confidence
`95%` the VaR index is `0`, so the reducer returns `VaR = 1/10` but
`ES = 0 < VaR`, refuting `ES(c) ≥ VaR(c)` for every confidence level. -/
theorem c3_es_lt_var_counterexample :
    (MonteCarloEngine.calculate_var_es [-(1/10)] (95/100)).2 <
      (MonteCarloEngine.calculate_var_es [-(1/10)] (95/100)).1 := by
  have hone : MonteCarloEngine.sortAscending [-(1/10)] = [-(1/10)] := by
    simp [MonteCarloEngine.sortAscending, List.insertionSort,
      List.orderedInsert]
  have hfl : (⌊(1 - (95:ℚ)/100) *
      ((MonteCarloEngine.sortAscending [-(1/10)]).length : ℚ)⌋).toNat = 0 := by
    rw [hone]
    have h2 : ⌊(1 - (95:ℚ)/100) * (([-(1/10)] : List ℚ).length : ℚ)⌋ = 0 :=
      floor_rat_eq (by norm_num) (by norm_num)
    rw [h2]
    rfl
  rw [calculate_var_es_of_lt [-(1/10)] (95/100) 0 hfl.symm
    (by rw [hone]; norm_num)]
  rw [if_neg (by norm_num)]
  rw [hone]
  norm_num [List.getD]

/-- C3 amended.  For every fixed return sample, `VaR(99%) ≥ VaR(95%)`; and
`ES(c) ≥ VaR(c)` holds for every confidence level `c` whose VaR index
`⌊(1 − c)·N⌋` is at least `1` (when the index is `0` the reducer returns
`ES = 0`, which can be smaller than VaR). -/
theorem c3_var_monotone_es_dominates_amended (returns : List ℚ) :
    (MonteCarloEngine.calculate_var_es returns (95/100)).1 ≤
      (MonteCarloEngine.calculate_var_es returns (99/100)).1 ∧
    ∀ confidence : ℚ,
      1 ≤ ⌊(1 - confidence) * (returns.length : ℚ)⌋ →
      (MonteCarloEngine.calculate_var_es returns confidence).1 ≤
        (MonteCarloEngine.calculate_var_es returns confidence).2 := by
  have hlen := sortAscending_length returns
  have hs := sortAscending_sorted returns
  constructor
  · by_cases h0 : (MonteCarloEngine.sortAscending returns).length = 0
    · rw [calculate_var_es_of_ge returns (95/100) _ rfl (by omega),
        calculate_var_es_of_ge returns (99/100) _ rfl (by omega)]
    · have hpos : 0 < (MonteCarloEngine.sortAscending returns).length :=
        Nat.pos_of_ne_zero h0
      have hN1 : (1 : ℚ) ≤
          ((MonteCarloEngine.sortAscending returns).length : ℚ) :=
        Nat.one_le_cast.mpr hpos
      have hnn95 : (0 : ℤ) ≤ ⌊(1 - 95/100) *
          ((MonteCarloEngine.sortAscending returns).length : ℚ)⌋ :=
        Int.floor_nonneg.mpr (by nlinarith)
      have hnn99 : (0 : ℤ) ≤ ⌊(1 - 99/100) *
          ((MonteCarloEngine.sortAscending returns).length : ℚ)⌋ :=
        Int.floor_nonneg.mpr (by nlinarith)
      have hlt95 : ⌊(1 - 95/100) *
          ((MonteCarloEngine.sortAscending returns).length : ℚ)⌋ <
          ((MonteCarloEngine.sortAscending returns).length : ℤ) := by
        rw [Int.floor_lt]
        push_cast
        nlinarith
      have hle : ⌊(1 - 99/100) *
          ((MonteCarloEngine.sortAscending returns).length : ℚ)⌋ ≤
          ⌊(1 - 95/100) *
          ((MonteCarloEngine.sortAscending returns).length : ℚ)⌋ :=
        Int.floor_le_floor (by nlinarith)
      rw [calculate_var_es_of_lt returns (95/100) _ rfl (by omega),
        calculate_var_es_of_lt returns (99/100) _ rfl (by omega)]
      have := sorted_getD_le (MonteCarloEngine.sortAscending returns) hs
        (⌊(1 - 99/100) *
          ((MonteCarloEngine.sortAscending returns).length : ℚ)⌋).toNat
        (⌊(1 - 95/100) *
          ((MonteCarloEngine.sortAscending returns).length : ℚ)⌋).toNat
        (by omega) (by omega)
      simpa using this
  · intro confidence hc
    have hc2 : (1 : ℤ) ≤ ⌊(1 - confidence) *
        ((MonteCarloEngine.sortAscending returns).length : ℚ)⌋ := by
      rw [hlen]; exact hc
    by_cases h : (⌊(1 - confidence) *
        ((MonteCarloEngine.sortAscending returns).length : ℚ)⌋).toNat <
        (MonteCarloEngine.sortAscending returns).length
    · rw [calculate_var_es_of_lt returns confidence _ rfl h]
      rw [if_pos (by omega)]
      have hsum := take_sum_le (MonteCarloEngine.sortAscending returns) hs
        (⌊(1 - confidence) *
          ((MonteCarloEngine.sortAscending returns).length : ℚ)⌋).toNat h
      have hipos : (0 : ℚ) < ((⌊(1 - confidence) *
          ((MonteCarloEngine.sortAscending returns).length : ℚ)⌋).toNat :
            ℚ) := by
        have : 0 < (⌊(1 - confidence) *
            ((MonteCarloEngine.sortAscending returns).length : ℚ)⌋).toNat :=
          by omega
        exact_mod_cast this
      rw [le_div_iff₀ hipos]
      nlinarith [hsum]
    · rw [calculate_var_es_of_ge returns confidence _ rfl (by omega)]

/-- Witness for C3 (amended): both parts instantiated on a concrete sample,
with the index hypothesis `1 ≤ ⌊(1 − 1/2)·3⌋` discharged. -/
theorem c3_var_monotone_es_dominates_amended_witness :
    (1 : ℤ) ≤ ⌊(1 - (1:ℚ)/2) *
      (([-(3/100), 1/100, 2/100] : List ℚ).length : ℚ)⌋ ∧
    (MonteCarloEngine.calculate_var_es [-(3/100), 1/100, 2/100]
      (1/2)).1 ≤
      (MonteCarloEngine.calculate_var_es [-(3/100), 1/100, 2/100]
        (1/2)).2 ∧
    (MonteCarloEngine.calculate_var_es [-(3/100), 1/100, 2/100]
      (95/100)).1 ≤
      (MonteCarloEngine.calculate_var_es [-(3/100), 1/100, 2/100]
        (99/100)).1 := by
  have hfl : ⌊(1 - (1:ℚ)/2) *
      (([-(3/100), 1/100, 2/100] : List ℚ).length : ℚ)⌋ = 1 :=
    floor_rat_eq (by norm_num) (by norm_num)
  refine ⟨by rw [hfl], ?_,
    (c3_var_monotone_es_dominates_amended [-(3/100), 1/100, 2/100]).1⟩
  exact (c3_var_monotone_es_dominates_amended [-(3/100), 1/100, 2/100]).2
    (1/2) (by rw [hfl])

/-! ### C5: silent exclusion of invalid or incomplete positions -/

/-- The position filter is idempotent. -/
theorem filter_valid_idem (positions : List Position)
    (md : PortfolioRiskCalculator.MarketData) :
    PortfolioRiskCalculator.filter_valid_positions
      (PortfolioRiskCalculator.filter_valid_positions positions md) md =
      PortfolioRiskCalculator.filter_valid_positions positions md := by
  simp only [PortfolioRiskCalculator.filter_valid_positions]
  exact List.filter_eq_self.mpr fun _ ha => (List.mem_filter.mp ha).2

/-- Accumulating into an association map adds at most the accumulated key. -/
theorem mapAddTo_mem_keys {α : Type} [DecidableEq α] (m : List (α × ℚ))
    (k : α) (v : ℚ) (u : α)
    (h : u ∈ (mapAddTo m k v).map Prod.fst) :
    u = k ∨ u ∈ m.map Prod.fst := by
  induction m with
  | nil =>
    rw [mapAddTo] at h
    simp only [List.map_cons, List.map_nil, List.mem_singleton] at h
    exact Or.inl h
  | cons a m ih =>
    obtain ⟨k2, w⟩ := a
    rw [mapAddTo] at h
    by_cases hk : k2 = k
    · rw [if_pos hk] at h
      simp only [List.map_cons, List.mem_cons] at h ⊢
      rcases h with h | h
      · exact Or.inl (h.trans hk)
      · exact Or.inr (Or.inr h)
    · rw [if_neg hk] at h
      simp only [List.map_cons, List.mem_cons] at h ⊢
      rcases h with h | h
      · exact Or.inr (Or.inl h)
      · rcases ih h with h2 | h2
        · exact Or.inl h2
        · exact Or.inr (Or.inr h2)

/-- Every key of the four aggregated Greek maps comes from the initial maps
or from the underlying of some aggregated position. -/
theorem aggregate_greeks_keys (u : String) :
    ∀ (ps : List Position) (rows : List (ℚ × ℚ × ℚ × ℚ × ℚ))
      (dm gm vm tm : List (String × ℚ)),
    (u ∈ ((PortfolioRiskCalculator.aggregate_greeks ps rows dm gm vm
        tm).1).map Prod.fst →
      u ∈ dm.map Prod.fst ∨ u ∈ ps.map Position.underlying) ∧
    (u ∈ ((PortfolioRiskCalculator.aggregate_greeks ps rows dm gm vm
        tm).2.1).map Prod.fst →
      u ∈ gm.map Prod.fst ∨ u ∈ ps.map Position.underlying) ∧
    (u ∈ ((PortfolioRiskCalculator.aggregate_greeks ps rows dm gm vm
        tm).2.2.1).map Prod.fst →
      u ∈ vm.map Prod.fst ∨ u ∈ ps.map Position.underlying) ∧
    (u ∈ ((PortfolioRiskCalculator.aggregate_greeks ps rows dm gm vm
        tm).2.2.2).map Prod.fst →
      u ∈ tm.map Prod.fst ∨ u ∈ ps.map Position.underlying) := by
  intro ps
  induction ps with
  | nil =>
    intro rows dm gm vm tm
    refine ⟨fun h => Or.inl ?_, fun h => Or.inl ?_, fun h => Or.inl ?_,
      fun h => Or.inl ?_⟩ <;>
      simpa [PortfolioRiskCalculator.aggregate_greeks] using h
  | cons pos ps ih =>
    intro rows dm gm vm tm
    cases rows with
    | nil =>
      refine ⟨fun h => Or.inl ?_, fun h => Or.inl ?_, fun h => Or.inl ?_,
        fun h => Or.inl ?_⟩ <;>
        simpa [PortfolioRiskCalculator.aggregate_greeks] using h
    | cons row rows =>
      rw [PortfolioRiskCalculator.aggregate_greeks]
      refine ⟨fun h => ?_, fun h => ?_, fun h => ?_, fun h => ?_⟩
      · rcases (ih rows _ _ _ _).1 h with h2 | h2
        · rcases mapAddTo_mem_keys _ _ _ _ h2 with h3 | h3
          · exact Or.inr (by simp [h3])
          · exact Or.inl h3
        · exact Or.inr (by simp [h2])
      · rcases (ih rows _ _ _ _).2.1 h with h2 | h2
        · rcases mapAddTo_mem_keys _ _ _ _ h2 with h3 | h3
          · exact Or.inr (by simp [h3])
          · exact Or.inl h3
        · exact Or.inr (by simp [h2])
      · rcases (ih rows _ _ _ _).2.2.1 h with h2 | h2
        · rcases mapAddTo_mem_keys _ _ _ _ h2 with h3 | h3
          · exact Or.inr (by simp [h3])
          · exact Or.inl h3
        · exact Or.inr (by simp [h2])
      · rcases (ih rows _ _ _ _).2.2.2 h with h2 | h2
        · rcases mapAddTo_mem_keys _ _ _ _ h2 with h3 | h3
          · exact Or.inr (by simp [h3])
          · exact Or.inl h3
        · exact Or.inr (by simp [h2])

/-- The four Greek maps returned by `calculate_portfolio_risk` (when valid
positions remain) are the aggregations over the filtered positions starting
from empty maps. -/
theorem portfolio_risk_maps (P : MathPrims) (cache : Cache)
    (rets : String → ℕ → ℚ) (n_simulations : ℕ)
    (positions : List Position) (md : PortfolioRiskCalculator.MarketData)
    (hv : PortfolioRiskCalculator.filter_valid_positions positions md ≠ []) :
    (PortfolioRiskCalculator.calculate_portfolio_risk P cache rets
        n_simulations positions md).2.delta_by_underlying =
      (PortfolioRiskCalculator.aggregate_greeks
        (PortfolioRiskCalculator.filter_valid_positions positions md)
        (PortfolioRiskCalculator.position_rows P md cache
          (PortfolioRiskCalculator.filter_valid_positions positions md)).2
        [] [] [] []).1 ∧
    (PortfolioRiskCalculator.calculate_portfolio_risk P cache rets
        n_simulations positions md).2.gamma_by_underlying =
      (PortfolioRiskCalculator.aggregate_greeks
        (PortfolioRiskCalculator.filter_valid_positions positions md)
        (PortfolioRiskCalculator.position_rows P md cache
          (PortfolioRiskCalculator.filter_valid_positions positions md)).2
        [] [] [] []).2.1 ∧
    (PortfolioRiskCalculator.calculate_portfolio_risk P cache rets
        n_simulations positions md).2.vega_by_underlying =
      (PortfolioRiskCalculator.aggregate_greeks
        (PortfolioRiskCalculator.filter_valid_positions positions md)
        (PortfolioRiskCalculator.position_rows P md cache
          (PortfolioRiskCalculator.filter_valid_positions positions md)).2
        [] [] [] []).2.2.1 ∧
    (PortfolioRiskCalculator.calculate_portfolio_risk P cache rets
        n_simulations positions md).2.theta_by_underlying =
      (PortfolioRiskCalculator.aggregate_greeks
        (PortfolioRiskCalculator.filter_valid_positions positions md)
        (PortfolioRiskCalculator.position_rows P md cache
          (PortfolioRiskCalculator.filter_valid_positions positions md)).2
        [] [] [] []).2.2.2 := by
  simp only [PortfolioRiskCalculator.calculate_portfolio_risk]
  rw [if_neg hv]
  exact ⟨rfl, rfl, rfl, rfl⟩

/-- C5.  Invalid positions and positions with incomplete market data are
silently excluded from `calculate_portfolio_risk`: the result is identical
to the result on the pre-filtered portfolio (so excluded positions affect no
returned metric, `portfolio_value` included); every key of the four
per-underlying Greek maps is the underlying of some surviving valid
position; and when no valid positions remain the call returns the
zero-valued default `RiskMetrics` (with the cache untouched) rather than an
error. -/
theorem c5_invalid_positions_silently_excluded (P : MathPrims)
    (cache : Cache) (rets : String → ℕ → ℚ) (n_simulations : ℕ)
    (positions : List Position) (md : PortfolioRiskCalculator.MarketData) :
    PortfolioRiskCalculator.calculate_portfolio_risk P cache rets
      n_simulations positions md =
      PortfolioRiskCalculator.calculate_portfolio_risk P cache rets
        n_simulations
        (PortfolioRiskCalculator.filter_valid_positions positions md) md ∧
    (∀ u : String,
      (u ∈ ((PortfolioRiskCalculator.calculate_portfolio_risk P cache rets
          n_simulations positions md).2.delta_by_underlying).map Prod.fst ∨
       u ∈ ((PortfolioRiskCalculator.calculate_portfolio_risk P cache rets
          n_simulations positions md).2.gamma_by_underlying).map Prod.fst ∨
       u ∈ ((PortfolioRiskCalculator.calculate_portfolio_risk P cache rets
          n_simulations positions md).2.vega_by_underlying).map Prod.fst ∨
       u ∈ ((PortfolioRiskCalculator.calculate_portfolio_risk P cache rets
          n_simulations positions md).2.theta_by_underlying).map Prod.fst) →
      u ∈ (PortfolioRiskCalculator.filter_valid_positions positions
        md).map Position.underlying) ∧
    (PortfolioRiskCalculator.filter_valid_positions positions md = [] →
      PortfolioRiskCalculator.calculate_portfolio_risk P cache rets
        n_simulations positions md = (cache, {})) := by
  refine ⟨?_, fun u hu => ?_, fun h => ?_⟩
  · simp only [PortfolioRiskCalculator.calculate_portfolio_risk,
      filter_valid_idem]
  · by_cases hv : PortfolioRiskCalculator.filter_valid_positions positions
        md = []
    · simp only [PortfolioRiskCalculator.calculate_portfolio_risk, hv,
        if_pos] at hu
      simp [PortfolioRiskCalculator.RiskMetrics.delta_by_underlying] at hu
    · obtain ⟨hd, hg, hve, ht⟩ := portfolio_risk_maps P cache rets
        n_simulations positions md hv
      rw [hd, hg, hve, ht] at hu
      rcases hu with h2 | h2 | h2 | h2
      · rcases (aggregate_greeks_keys u _ _ [] [] [] []).1 h2 with h3 | h3
        · simp at h3
        · exact h3
      · rcases (aggregate_greeks_keys u _ _ [] [] [] []).2.1 h2 with h3 | h3
        · simp at h3
        · exact h3
      · rcases (aggregate_greeks_keys u _ _ [] [] [] []).2.2.1 h2 with
          h3 | h3
        · simp at h3
        · exact h3
      · rcases (aggregate_greeks_keys u _ _ [] [] [] []).2.2.2 h2 with
          h3 | h3
        · simp at h3
        · exact h3
  · simp only [PortfolioRiskCalculator.calculate_portfolio_risk, h, if_pos]

/-- Witness for C5: a portfolio whose only position has an unknown
underlying yields the zero-valued metrics with the cache untouched; and on a
mixed portfolio the key `"WTI"` of the delta map is the underlying of a
surviving valid position. -/
theorem c5_invalid_positions_silently_excluded_witness :
    PortfolioRiskCalculator.calculate_portfolio_risk testPrims []
      (fun _ _ => 0) 0
      [{ instrument_id := "B1", underlying := "XYZ", notional := 1,
         strike := 80, maturity := 1, is_call := true }]
      { spot_prices := [("WTI", 75)], volatilities := [("WTI", 1/5)],
        risk_free_rate := 1/20 } = ([], {}) ∧
    "WTI" ∈ (PortfolioRiskCalculator.filter_valid_positions
      [{ instrument_id := "G1", underlying := "WTI", notional := 1,
         strike := 80, maturity := 0, is_call := true },
       { instrument_id := "B1", underlying := "XYZ", notional := 1,
         strike := 80, maturity := 1, is_call := true }]
      { spot_prices := [("WTI", 75)], volatilities := [("WTI", 1/5)],
        risk_free_rate := 1/20 }).map Position.underlying := by
  constructor
  · refine (c5_invalid_positions_silently_excluded testPrims []
      (fun _ _ => 0) 0 _ _).2.2 ?_
    simp [PortfolioRiskCalculator.filter_valid_positions,
      Position.is_valid,
      PortfolioRiskCalculator.MarketData.is_complete_for_position, mapFind]
  · refine (c5_invalid_positions_silently_excluded testPrims []
      (fun _ _ => 0) 0 _ _).2.1 "WTI" (Or.inl ?_)
    have hv : PortfolioRiskCalculator.filter_valid_positions
        [{ instrument_id := "G1", underlying := "WTI", notional := 1,
           strike := 80, maturity := 0, is_call := true },
         { instrument_id := "B1", underlying := "XYZ", notional := 1,
           strike := 80, maturity := 1, is_call := true }]
        { spot_prices := [("WTI", 75)], volatilities := [("WTI", 1/5)],
          risk_free_rate := 1/20 } =
        [{ instrument_id := "G1", underlying := "WTI", notional := 1,
           strike := 80, maturity := 0, is_call := true }] := by
      simp [PortfolioRiskCalculator.filter_valid_positions,
        Position.is_valid,
        PortfolioRiskCalculator.MarketData.is_complete_for_position,
        mapFind]
    rw [(portfolio_risk_maps testPrims [] (fun _ _ => 0) 0 _ _
      (by rw [hv]; simp)).1, hv]
    norm_num [PortfolioRiskCalculator.position_rows,
      PortfolioRiskCalculator.aggregate_greeks, mapAddTo,
      PortfolioRiskCalculator.MarketData.spotAt,
      PortfolioRiskCalculator.MarketData.volAt, mapFind,
      BlackScholesModel.price, BlackScholesModel.calculate_all_greeks]

end Frm
